import Mathlib

/-!
Verification of the query/update/aggregation builders of mongo-kit-go
(`query.go`), over a shallow embedding of the Go code.

BSON documents (`bson.D`) are ordered lists of key/value pairs, `bson.M` is
a Go map from string keys to values (modelled as an association list with
Go map-assignment semantics: assigning to an existing key overwrites it in
place, assigning to a fresh key adds an entry), `bson.E` is a single pair.
Dynamically typed Go values (`any`) are modelled by the inductive `BVal`.
-/

namespace MongoKit

/-- Dynamic BSON values (`any` in the Go source). `docList` is the Go type
`[]bson.D`, which `And`/`Or`/`Nor` store as an operator value. -/
inductive BVal where
  | int : Int → BVal
  | str : String → BVal
  | bool : Bool → BVal
  | null : BVal
  | arr : List BVal → BVal
  | doc : List (String × BVal) → BVal
  | map : List (String × BVal) → BVal
  | docList : List (List (String × BVal)) → BVal

/-- Go `bson.D`: an ordered document. -/
abbrev BsonD := List (String × BVal)

/-- Go `bson.M`: a Go map, modelled as an association list whose keys the
operations below keep unique. -/
abbrev BsonM := List (String × BVal)

/-- Go map assignment `m[k] = v`: overwrite the existing entry for `k`
in place, or add a new entry when `k` is absent. -/
def mapSet : BsonM → String → BVal → BsonM
  | [], k, v => [(k, v)]
  | (k', v') :: rest, k, v =>
    if k' = k then (k', v) :: rest else (k', v') :: mapSet rest k v

/-- Go map read `m[k]`: the value of the first entry keyed `k`, if any. -/
def mapLookup : BsonM → String → Option BVal
  | [], _ => none
  | (k', v) :: rest, k => if k' = k then some v else mapLookup rest k

theorem mapSet_keys_mem {m : BsonM} {k a : String} {v : BVal}
    (h : a ∈ (mapSet m k v).map Prod.fst) : a ∈ m.map Prod.fst ∨ a = k := by
  induction m with
  | nil => simpa [mapSet] using h
  | cons hd tl ih =>
    obtain ⟨k', v'⟩ := hd
    by_cases hk : k' = k
    · rw [show mapSet ((k', v') :: tl) k v = (k', v) :: tl from by
        simp [mapSet, hk]] at h
      simp only [List.map_cons, List.mem_cons] at h ⊢
      tauto
    · rw [show mapSet ((k', v') :: tl) k v = (k', v') :: mapSet tl k v from by
        simp [mapSet, hk]] at h
      simp only [List.map_cons, List.mem_cons] at h ⊢
      rcases h with h | h
      · tauto
      · rcases ih h with h' | h' <;> tauto

theorem mapSet_keys_nodup {m : BsonM} (k : String) (v : BVal)
    (h : (m.map Prod.fst).Nodup) : ((mapSet m k v).map Prod.fst).Nodup := by
  induction m with
  | nil => simp [mapSet]
  | cons hd tl ih =>
    obtain ⟨k', v'⟩ := hd
    simp only [List.map_cons, List.nodup_cons] at h
    by_cases hk : k' = k
    · simp only [mapSet, hk, if_true, List.map_cons, List.nodup_cons]
      exact ⟨by simpa [hk] using h.1, h.2⟩
    · simp only [mapSet, hk, if_false, List.map_cons, List.nodup_cons]
      refine ⟨fun hmem => ?_, ih h.2⟩
      rcases mapSet_keys_mem hmem with h' | h'
      · exact h.1 h'
      · exact hk h'

theorem mapLookup_mapSet_self (m : BsonM) (k : String) (v : BVal) :
    mapLookup (mapSet m k v) k = some v := by
  induction m with
  | nil => simp [mapSet, mapLookup]
  | cons hd tl ih =>
    obtain ⟨k', v'⟩ := hd
    by_cases hk : k' = k
    · simp [mapSet, mapLookup, hk]
    · simp [mapSet, mapLookup, hk, ih]

theorem mapLookup_mapSet_other (m : BsonM) {k k' : String} (v : BVal)
    (h : k' ≠ k) : mapLookup (mapSet m k v) k' = mapLookup m k' := by
  induction m with
  | nil =>
    rw [show mapSet [] k v = [(k, v)] from rfl]
    simp [mapLookup, Ne.symm h]
  | cons hd tl ih =>
    obtain ⟨k₀, v₀⟩ := hd
    by_cases hk : k₀ = k
    · have h1 : k₀ ≠ k' := fun hc => h (hc ▸ hk)
      rw [show mapSet ((k₀, v₀) :: tl) k v = (k₀, v) :: tl from by
        simp [mapSet, hk]]
      simp [mapLookup, h1]
    · rw [show mapSet ((k₀, v₀) :: tl) k v = (k₀, v₀) :: mapSet tl k v from by
        simp [mapSet, hk]]
      by_cases hk' : k₀ = k'
      · simp [mapLookup, hk']
      · simp [mapLookup, hk', ih]

/-! Section: UpdateBuilder (`query.go` lines 215–334) -/

/-- Go `UpdateBuilder` holds the update document being built. -/
structure UpdateBuilder where
  update : BsonD

/-- Go `NewUpdateBuilder()`. -/
def NewUpdateBuilder : UpdateBuilder := ⟨[]⟩

/-- The loop body of `addOperator`: scan `update` for the first entry keyed
`operator`; if found and its value is a `bson.M`, assign `m[key] = value`;
if found with a non-map value, replace the value by `bson.M{key: value}`;
otherwise append a fresh entry `(operator, bson.M{key: value})`. -/
def addOperatorD : BsonD → String → String → BVal → BsonD
  | [], operator, key, value => [(operator, BVal.map [(key, value)])]
  | (o, val) :: rest, operator, key, value =>
    if o = operator then
      match val with
      | BVal.map m => (o, BVal.map (mapSet m key value)) :: rest
      | _ => (o, BVal.map [(key, value)]) :: rest
    else (o, val) :: addOperatorD rest operator key value

/-- Go `(*UpdateBuilder).addOperator`. -/
def UpdateBuilder.addOperator (ub : UpdateBuilder) (operator key : String)
    (value : BVal) : UpdateBuilder :=
  ⟨addOperatorD ub.update operator key value⟩

/-- Go `Set(key, value)`. -/
def UpdateBuilder.Set (ub : UpdateBuilder) (key : String) (value : BVal) :
    UpdateBuilder := ub.addOperator "$set" key value

/-- Go `Unset(keys...)`: one `addOperator` call per key, value `""`. -/
def UpdateBuilder.Unset (ub : UpdateBuilder) (keys : List String) :
    UpdateBuilder :=
  keys.foldl (fun b key => b.addOperator "$unset" key (BVal.str "")) ub

/-- Go `Inc(key, value)`. -/
def UpdateBuilder.Inc (ub : UpdateBuilder) (key : String) (value : BVal) :
    UpdateBuilder := ub.addOperator "$inc" key value

/-- Go `Mul(key, value)`. -/
def UpdateBuilder.Mul (ub : UpdateBuilder) (key : String) (value : BVal) :
    UpdateBuilder := ub.addOperator "$mul" key value

/-- Go `Min(key, value)`. -/
def UpdateBuilder.Min (ub : UpdateBuilder) (key : String) (value : BVal) :
    UpdateBuilder := ub.addOperator "$min" key value

/-- Go `Max(key, value)`. -/
def UpdateBuilder.Max (ub : UpdateBuilder) (key : String) (value : BVal) :
    UpdateBuilder := ub.addOperator "$max" key value

/-- Go `Push(key, value)`. -/
def UpdateBuilder.Push (ub : UpdateBuilder) (key : String) (value : BVal) :
    UpdateBuilder := ub.addOperator "$push" key value

/-- Go `Pull(key, value)`. -/
def UpdateBuilder.Pull (ub : UpdateBuilder) (key : String) (value : BVal) :
    UpdateBuilder := ub.addOperator "$pull" key value

/-- Go `AddToSet(key, value)`. -/
def UpdateBuilder.AddToSet (ub : UpdateBuilder) (key : String) (value : BVal) :
    UpdateBuilder := ub.addOperator "$addToSet" key value

/-- Go `Pop(key, first)`: position `-1` when `first`, else `1`. -/
def UpdateBuilder.Pop (ub : UpdateBuilder) (key : String) (first : Bool) :
    UpdateBuilder :=
  ub.addOperator "$pop" key (BVal.int (if first then -1 else 1))

/-- Go `CurrentDate(key)`. -/
def UpdateBuilder.CurrentDate (ub : UpdateBuilder) (key : String) :
    UpdateBuilder := ub.addOperator "$currentDate" key (BVal.bool true)

/-- Go `Rename(oldName, newName)`. -/
def UpdateBuilder.Rename (ub : UpdateBuilder) (oldName newName : String) :
    UpdateBuilder := ub.addOperator "$rename" oldName (BVal.str newName)

/-- Go `Build()` of `UpdateBuilder`. -/
def UpdateBuilder.Build (ub : UpdateBuilder) : BsonD := ub.update

/-- One public `UpdateBuilder` call. -/
inductive UpdateOp where
  | set (key : String) (value : BVal)
  | unset (keys : List String)
  | inc (key : String) (value : BVal)
  | mul (key : String) (value : BVal)
  | min (key : String) (value : BVal)
  | max (key : String) (value : BVal)
  | push (key : String) (value : BVal)
  | pull (key : String) (value : BVal)
  | addToSet (key : String) (value : BVal)
  | pop (key : String) (first : Bool)
  | currentDate (key : String)
  | rename (oldName newName : String)

/-- Apply one public `UpdateBuilder` call. -/
def applyUpdateOp (ub : UpdateBuilder) : UpdateOp → UpdateBuilder
  | .set k v => ub.Set k v
  | .unset ks => ub.Unset ks
  | .inc k v => ub.Inc k v
  | .mul k v => ub.Mul k v
  | .min k v => ub.Min k v
  | .max k v => ub.Max k v
  | .push k v => ub.Push k v
  | .pull k v => ub.Pull k v
  | .addToSet k v => ub.AddToSet k v
  | .pop k f => ub.Pop k f
  | .currentDate k => ub.CurrentDate k
  | .rename o n => ub.Rename o n

/-- Run a sequence of public calls from `NewUpdateBuilder`. -/
def runUpdate (ops : List UpdateOp) : UpdateBuilder :=
  ops.foldl applyUpdateOp NewUpdateBuilder

/-- The well-formedness invariant of the update document: operator keys are
unique, and every operator value is a field map with unique field keys. -/
def goodUpdate (u : BsonD) : Prop :=
  (u.map Prod.fst).Nodup ∧
    ∀ e ∈ u, ∃ m, e.2 = BVal.map m ∧ (m.map Prod.fst).Nodup

/-- The field map currently stored under operator `op` (empty when absent
or not a map). -/
def fieldMapOf (u : BsonD) (op : String) : BsonM :=
  match mapLookup u op with
  | some (BVal.map m) => m
  | _ => []

theorem addOperatorD_keys_mem {u : BsonD} {op k a : String} {v : BVal}
    (h : a ∈ (addOperatorD u op k v).map Prod.fst) :
    a ∈ u.map Prod.fst ∨ a = op := by
  induction u with
  | nil => simpa [addOperatorD] using h
  | cons hd tl ih =>
    obtain ⟨o, val⟩ := hd
    by_cases ho : o = op
    · simp only [addOperatorD, ho, if_true] at h
      cases val <;> simp_all
    · simp only [addOperatorD, ho, if_false, List.map_cons, List.mem_cons] at h
      rcases h with h | h
      · exact Or.inl (by simp [h])
      · rcases ih h with h' | h'
        · exact Or.inl (by simp [h'])
        · exact Or.inr h'

theorem addOperatorD_keys_nodup {u : BsonD} (op k : String) (v : BVal)
    (h : (u.map Prod.fst).Nodup) :
    ((addOperatorD u op k v).map Prod.fst).Nodup := by
  induction u with
  | nil => simp [addOperatorD]
  | cons hd tl ih =>
    obtain ⟨o, val⟩ := hd
    simp only [List.map_cons, List.nodup_cons] at h
    by_cases ho : o = op
    · simp only [addOperatorD, ho, if_true]
      cases val <;> simp_all
    · simp only [addOperatorD, ho, if_false, List.map_cons, List.nodup_cons]
      refine ⟨fun hmem => ?_, ih h.2⟩
      rcases addOperatorD_keys_mem hmem with h' | h'
      · exact h.1 h'
      · exact ho h'

theorem addOperatorD_values_good {u : BsonD} (op k : String) (v : BVal)
    (h : ∀ e ∈ u, ∃ m, e.2 = BVal.map m ∧ (m.map Prod.fst).Nodup) :
    ∀ e ∈ addOperatorD u op k v,
      ∃ m, e.2 = BVal.map m ∧ (m.map Prod.fst).Nodup := by
  induction u with
  | nil =>
    intro e he
    simp only [addOperatorD, List.mem_singleton] at he
    exact ⟨[(k, v)], by simp [he]⟩
  | cons hd tl ih =>
    obtain ⟨o, val⟩ := hd
    intro e he
    by_cases ho : o = op
    · simp only [addOperatorD, ho, if_true] at he
      cases val with
      | map m =>
        simp only [List.mem_cons] at he
        rcases he with he | he
        · obtain ⟨m', hm', hnd⟩ := h (o, BVal.map m) (by simp)
          have hmm : m = m' := by
            simpa using congrArg (fun x => x) hm'
          refine ⟨mapSet m k v, by simp [he], ?_⟩
          exact mapSet_keys_nodup k v (hmm ▸ hnd)
        · exact h e (List.mem_cons_of_mem _ he)
      | int n =>
        simp only [List.mem_cons] at he
        rcases he with he | he
        · exact ⟨[(k, v)], by simp [he]⟩
        · exact h e (List.mem_cons_of_mem _ he)
      | str s =>
        simp only [List.mem_cons] at he
        rcases he with he | he
        · exact ⟨[(k, v)], by simp [he]⟩
        · exact h e (List.mem_cons_of_mem _ he)
      | bool b =>
        simp only [List.mem_cons] at he
        rcases he with he | he
        · exact ⟨[(k, v)], by simp [he]⟩
        · exact h e (List.mem_cons_of_mem _ he)
      | null =>
        simp only [List.mem_cons] at he
        rcases he with he | he
        · exact ⟨[(k, v)], by simp [he]⟩
        · exact h e (List.mem_cons_of_mem _ he)
      | arr l =>
        simp only [List.mem_cons] at he
        rcases he with he | he
        · exact ⟨[(k, v)], by simp [he]⟩
        · exact h e (List.mem_cons_of_mem _ he)
      | doc d =>
        simp only [List.mem_cons] at he
        rcases he with he | he
        · exact ⟨[(k, v)], by simp [he]⟩
        · exact h e (List.mem_cons_of_mem _ he)
      | docList l =>
        simp only [List.mem_cons] at he
        rcases he with he | he
        · exact ⟨[(k, v)], by simp [he]⟩
        · exact h e (List.mem_cons_of_mem _ he)
    · simp only [addOperatorD, ho, if_false, List.mem_cons] at he
      rcases he with rfl | he
      · exact h (o, val) (by simp)
      · exact ih (fun e' he' => h e' (List.mem_cons_of_mem _ he')) e he

theorem goodUpdate_addOperatorD {u : BsonD} (op k : String) (v : BVal)
    (h : goodUpdate u) : goodUpdate (addOperatorD u op k v) :=
  ⟨addOperatorD_keys_nodup op k v h.1, addOperatorD_values_good op k v h.2⟩

theorem goodUpdate_applyUpdateOp (ub : UpdateBuilder) (op : UpdateOp)
    (h : goodUpdate ub.update) : goodUpdate (applyUpdateOp ub op).update := by
  cases op with
  | unset ks =>
    show goodUpdate (UpdateBuilder.Unset ub ks).update
    unfold UpdateBuilder.Unset
    induction ks generalizing ub with
    | nil => exact h
    | cons k rest ih =>
      exact ih _ (goodUpdate_addOperatorD _ _ _ h)
  | set k v => exact goodUpdate_addOperatorD _ _ _ h
  | inc k v => exact goodUpdate_addOperatorD _ _ _ h
  | mul k v => exact goodUpdate_addOperatorD _ _ _ h
  | min k v => exact goodUpdate_addOperatorD _ _ _ h
  | max k v => exact goodUpdate_addOperatorD _ _ _ h
  | push k v => exact goodUpdate_addOperatorD _ _ _ h
  | pull k v => exact goodUpdate_addOperatorD _ _ _ h
  | addToSet k v => exact goodUpdate_addOperatorD _ _ _ h
  | pop k f => exact goodUpdate_addOperatorD _ _ _ h
  | currentDate k => exact goodUpdate_addOperatorD _ _ _ h
  | rename o n => exact goodUpdate_addOperatorD _ _ _ h

theorem goodUpdate_runUpdate (ops : List UpdateOp) :
    goodUpdate (runUpdate ops).update := by
  have main : ∀ (l : List UpdateOp) (ub : UpdateBuilder),
      goodUpdate ub.update → goodUpdate (l.foldl applyUpdateOp ub).update := by
    intro l
    induction l with
    | nil => intro ub h; exact h
    | cons op rest ih =>
      intro ub h
      exact ih _ (goodUpdate_applyUpdateOp ub op h)
  exact main ops NewUpdateBuilder ⟨by simp [NewUpdateBuilder], by simp [NewUpdateBuilder]⟩

theorem fieldMapOf_addOperatorD (u : BsonD) (op k : String) (v : BVal) :
    fieldMapOf (addOperatorD u op k v) op = mapSet (fieldMapOf u op) k v := by
  induction u with
  | nil => simp [addOperatorD, fieldMapOf, mapLookup, mapSet]
  | cons hd tl ih =>
    obtain ⟨o, val⟩ := hd
    by_cases ho : o = op
    · cases val <;> simp [addOperatorD, fieldMapOf, mapLookup, ho, mapSet]
    · simp only [addOperatorD, ho, if_false]
      simpa [fieldMapOf, mapLookup, ho] using ih

/-! Section: QueryBuilder (`query.go` lines 16–213) -/

/-- The subset of `options.FindOptions` the builder touches. -/
structure FindOptions where
  limit : Option Int
  skip : Option Int
  sort : Option BVal
  projection : Option BVal

/-- Go `options.Find()`: all options unset. -/
def findOptions : FindOptions :=
  { limit := none, skip := none, sort := none, projection := none }

/-- Go `QueryBuilder` state: the filter, the accumulated sort fields, and the
find options. -/
structure QueryBuilder where
  filter : BsonD
  sortFields : BsonD
  options : FindOptions

/-- Go `NewQueryBuilder()`. -/
def NewQueryBuilder : QueryBuilder :=
  { filter := [], sortFields := [], options := findOptions }

/-- Go `Filter(key, value)`: append one entry to the filter. -/
def QueryBuilder.Filter (qb : QueryBuilder) (key : String) (value : BVal) :
    QueryBuilder := { qb with filter := qb.filter ++ [(key, value)] }

/-- Go `Equals(key, value)`: alias for `Filter`. -/
def QueryBuilder.Equals (qb : QueryBuilder) (key : String) (value : BVal) :
    QueryBuilder := qb.Filter key value

/-- Go `NotEquals(key, value)`. -/
def QueryBuilder.NotEquals (qb : QueryBuilder) (key : String) (value : BVal) :
    QueryBuilder := qb.Filter key (BVal.map [("$ne", value)])

/-- Go `GreaterThan(key, value)`. -/
def QueryBuilder.GreaterThan (qb : QueryBuilder) (key : String)
    (value : BVal) : QueryBuilder :=
  qb.Filter key (BVal.map [("$gt", value)])

/-- Go `GreaterThanOrEqual(key, value)`. -/
def QueryBuilder.GreaterThanOrEqual (qb : QueryBuilder) (key : String)
    (value : BVal) : QueryBuilder :=
  qb.Filter key (BVal.map [("$gte", value)])

/-- Go `LessThan(key, value)`. -/
def QueryBuilder.LessThan (qb : QueryBuilder) (key : String) (value : BVal) :
    QueryBuilder := qb.Filter key (BVal.map [("$lt", value)])

/-- Go `LessThanOrEqual(key, value)`. -/
def QueryBuilder.LessThanOrEqual (qb : QueryBuilder) (key : String)
    (value : BVal) : QueryBuilder :=
  qb.Filter key (BVal.map [("$lte", value)])

/-- Go `In(key, values...)`. -/
def QueryBuilder.In (qb : QueryBuilder) (key : String) (values : List BVal) :
    QueryBuilder := qb.Filter key (BVal.map [("$in", BVal.arr values)])

/-- Go `NotIn(key, values...)`. -/
def QueryBuilder.NotIn (qb : QueryBuilder) (key : String)
    (values : List BVal) : QueryBuilder :=
  qb.Filter key (BVal.map [("$nin", BVal.arr values)])

/-- Go `Exists(key, exists)`. -/
def QueryBuilder.Exists (qb : QueryBuilder) (key : String) (e : Bool) :
    QueryBuilder := qb.Filter key (BVal.map [("$exists", BVal.bool e)])

/-- Go `Regex(key, pattern, options)`. -/
def QueryBuilder.Regex (qb : QueryBuilder) (key pattern opts : String) :
    QueryBuilder :=
  qb.Filter key (BVal.map [("$regex", BVal.str pattern),
                           ("$options", BVal.str opts)])

/-- Go `And(conditions...)`: when the list is non-empty, append one entry keyed
`$and` holding the `[]bson.D` list; otherwise no-op. -/
def QueryBuilder.And (qb : QueryBuilder) (conditions : List BsonD) :
    QueryBuilder :=
  if 0 < conditions.length then
    { qb with filter := qb.filter ++ [("$and", BVal.docList conditions)] }
  else qb

/-- Go `Or(conditions...)`. -/
def QueryBuilder.Or (qb : QueryBuilder) (conditions : List BsonD) :
    QueryBuilder :=
  if 0 < conditions.length then
    { qb with filter := qb.filter ++ [("$or", BVal.docList conditions)] }
  else qb

/-- Go `Nor(conditions...)`. -/
def QueryBuilder.Nor (qb : QueryBuilder) (conditions : List BsonD) :
    QueryBuilder :=
  if 0 < conditions.length then
    { qb with filter := qb.filter ++ [("$nor", BVal.docList conditions)] }
  else qb

/-- Go `Limit(limit)`. -/
def QueryBuilder.Limit (qb : QueryBuilder) (limit : Int) : QueryBuilder :=
  { qb with options := { qb.options with limit := some limit } }

/-- Go `Skip(skip)`. -/
def QueryBuilder.Skip (qb : QueryBuilder) (skip : Int) : QueryBuilder :=
  { qb with options := { qb.options with skip := some skip } }

/-- Go `Sort(field, ascending)`: append `(field, ±1)` to the accumulated sort
fields and set the options' sort to the full accumulated sequence. -/
def QueryBuilder.Sort (qb : QueryBuilder) (field : String)
    (ascending : Bool) : QueryBuilder :=
  let order : Int := if ascending then 1 else -1
  let sf := qb.sortFields ++ [(field, BVal.int order)]
  { qb with sortFields := sf,
            options := { qb.options with sort := some (BVal.doc sf) } }

/-- Go `SortBy(sort)`: clear the accumulated sort fields and set the options'
sort to the caller-supplied value. -/
def QueryBuilder.SortBy (qb : QueryBuilder) (sort : BVal) : QueryBuilder :=
  { qb with sortFields := [],
            options := { qb.options with sort := some sort } }

/-- Go `Project(projection)`. -/
def QueryBuilder.Project (qb : QueryBuilder) (projection : BVal) :
    QueryBuilder :=
  { qb with options := { qb.options with projection := some projection } }

/-- Go `GetFilter()`. -/
def QueryBuilder.GetFilter (qb : QueryBuilder) : BsonD := qb.filter

/-- Go `Build()` of `QueryBuilder`. -/
def QueryBuilder.Build (qb : QueryBuilder) : BsonD × FindOptions :=
  (qb.filter, qb.options)

/-- Go `AndConditions(builders...)`: no-op for zero builders; otherwise collect
each builder's `GetFilter()` and delegate to `And`. -/
def QueryBuilder.AndConditions (qb : QueryBuilder)
    (builders : List QueryBuilder) : QueryBuilder :=
  if builders.length = 0 then qb
  else qb.And (builders.map (fun b => b.GetFilter))

/-- Go `OrConditions(builders...)`. -/
def QueryBuilder.OrConditions (qb : QueryBuilder)
    (builders : List QueryBuilder) : QueryBuilder :=
  if builders.length = 0 then qb
  else qb.Or (builders.map (fun b => b.GetFilter))

/-- Go `NorConditions(builders...)`. -/
def QueryBuilder.NorConditions (qb : QueryBuilder)
    (builders : List QueryBuilder) : QueryBuilder :=
  if builders.length = 0 then qb
  else qb.Nor (builders.map (fun b => b.GetFilter))

/-- The dynamic shape of the `any` argument of `Where`: the Go type switch
distinguishes `bson.M`, `bson.D`, `bson.E`, and everything else. -/
inductive WhereExpr where
  | m : BsonM → WhereExpr
  | d : BsonD → WhereExpr
  | e : String → BVal → WhereExpr
  | other : BVal → WhereExpr

/-- Go `Where(expression)`: append the map's entries one by one, a `bson.D`
verbatim, a `bson.E` as one entry; any other shape is ignored. -/
def QueryBuilder.Where (qb : QueryBuilder) (expression : WhereExpr) :
    QueryBuilder :=
  match expression with
  | .m v => { qb with filter := qb.filter ++ v }
  | .d v => { qb with filter := qb.filter ++ v }
  | .e k v => { qb with filter := qb.filter ++ [(k, v)] }
  | .other _ => qb

/-- One public `QueryBuilder` call (every method of the type). -/
inductive QBOp where
  | filterOp (key : String) (value : BVal)
  | equals (key : String) (value : BVal)
  | notEquals (key : String) (value : BVal)
  | greaterThan (key : String) (value : BVal)
  | greaterThanOrEqual (key : String) (value : BVal)
  | lessThan (key : String) (value : BVal)
  | lessThanOrEqual (key : String) (value : BVal)
  | inOp (key : String) (values : List BVal)
  | notInOp (key : String) (values : List BVal)
  | existsOp (key : String) (e : Bool)
  | regex (key pattern opts : String)
  | andOp (conditions : List BsonD)
  | orOp (conditions : List BsonD)
  | norOp (conditions : List BsonD)
  | limit (n : Int)
  | skip (n : Int)
  | sort (field : String) (ascending : Bool)
  | sortBy (s : BVal)
  | project (p : BVal)
  | andConds (builders : List QueryBuilder)
  | orConds (builders : List QueryBuilder)
  | norConds (builders : List QueryBuilder)
  | whereOp (e : WhereExpr)

/-- Apply one public `QueryBuilder` call. -/
def applyQBOp (qb : QueryBuilder) : QBOp → QueryBuilder
  | .filterOp k v => qb.Filter k v
  | .equals k v => qb.Equals k v
  | .notEquals k v => qb.NotEquals k v
  | .greaterThan k v => qb.GreaterThan k v
  | .greaterThanOrEqual k v => qb.GreaterThanOrEqual k v
  | .lessThan k v => qb.LessThan k v
  | .lessThanOrEqual k v => qb.LessThanOrEqual k v
  | .inOp k vs => qb.In k vs
  | .notInOp k vs => qb.NotIn k vs
  | .existsOp k e => qb.Exists k e
  | .regex k p o => qb.Regex k p o
  | .andOp cs => qb.And cs
  | .orOp cs => qb.Or cs
  | .norOp cs => qb.Nor cs
  | .limit n => qb.Limit n
  | .skip n => qb.Skip n
  | .sort f a => qb.Sort f a
  | .sortBy s => qb.SortBy s
  | .project p => qb.Project p
  | .andConds bs => qb.AndConditions bs
  | .orConds bs => qb.OrConditions bs
  | .norConds bs => qb.NorConditions bs
  | .whereOp e => qb.Where e

/-- Apply a sequence of public `QueryBuilder` calls. -/
def applyQBOps (qb : QueryBuilder) (ops : List QBOp) : QueryBuilder :=
  ops.foldl applyQBOp qb

/-! Section: AggregationBuilder (`query.go` lines 336–415) -/

/-- Go `AggregationBuilder` holds the pipeline being built. -/
structure AggregationBuilder where
  pipeline : List BsonD

/-- Go `NewAggregationBuilder()`. -/
def NewAggregationBuilder : AggregationBuilder := ⟨[]⟩

/-- Go `Match(filter)`. -/
def AggregationBuilder.Match (ab : AggregationBuilder) (filter : BVal) :
    AggregationBuilder := ⟨ab.pipeline ++ [[("$match", filter)]]⟩

/-- Go `Group(id, fields)`: start from `bson.M{"_id": id}` and copy `fields`
into it (`maps.Copy`, so a `_id` key in `fields` overwrites). -/
def AggregationBuilder.Group (ab : AggregationBuilder) (id : BVal)
    (fields : BsonM) : AggregationBuilder :=
  ⟨ab.pipeline ++
    [[("$group",
       BVal.map (fields.foldl (fun g kv => mapSet g kv.1 kv.2)
         [("_id", id)]))]]⟩

/-- Go `Sort(sort)` stage. -/
def AggregationBuilder.Sort (ab : AggregationBuilder) (sort : BVal) :
    AggregationBuilder := ⟨ab.pipeline ++ [[("$sort", sort)]]⟩

/-- Go `Limit(limit)` stage. -/
def AggregationBuilder.Limit (ab : AggregationBuilder) (limit : Int) :
    AggregationBuilder := ⟨ab.pipeline ++ [[("$limit", BVal.int limit)]]⟩

/-- Go `Skip(skip)` stage. -/
def AggregationBuilder.Skip (ab : AggregationBuilder) (skip : Int) :
    AggregationBuilder := ⟨ab.pipeline ++ [[("$skip", BVal.int skip)]]⟩

/-- Go `Project(projection)` stage. -/
def AggregationBuilder.Project (ab : AggregationBuilder) (projection : BVal) :
    AggregationBuilder := ⟨ab.pipeline ++ [[("$project", projection)]]⟩

/-- Go `Unwind(path)` stage. -/
def AggregationBuilder.Unwind (ab : AggregationBuilder) (path : String) :
    AggregationBuilder := ⟨ab.pipeline ++ [[("$unwind", BVal.str path)]]⟩

/-- Go `Lookup(from, localField, foreignField, as)` stage. -/
def AggregationBuilder.Lookup (ab : AggregationBuilder)
    (from_ localField foreignField as_ : String) : AggregationBuilder :=
  ⟨ab.pipeline ++
    [[("$lookup",
       BVal.map [("from", BVal.str from_),
                 ("localField", BVal.str localField),
                 ("foreignField", BVal.str foreignField),
                 ("as", BVal.str as_)])]]⟩

/-- Go `AddStage(stage)`. -/
def AggregationBuilder.AddStage (ab : AggregationBuilder) (stage : BsonD) :
    AggregationBuilder := ⟨ab.pipeline ++ [stage]⟩

/-- Go `Build()` of `AggregationBuilder`. -/
def AggregationBuilder.Build (ab : AggregationBuilder) : List BsonD :=
  ab.pipeline

/-- One public `AggregationBuilder` call. -/
inductive AggOp where
  | matchOp (filter : BVal)
  | group (id : BVal) (fields : BsonM)
  | sort (s : BVal)
  | limit (n : Int)
  | skip (n : Int)
  | project (p : BVal)
  | unwind (path : String)
  | lookup (from_ localField foreignField as_ : String)
  | addStage (stage : BsonD)

/-- Apply one public `AggregationBuilder` call. -/
def applyAggOp (ab : AggregationBuilder) : AggOp → AggregationBuilder
  | .matchOp f => ab.Match f
  | .group i fs => ab.Group i fs
  | .sort s => ab.Sort s
  | .limit n => ab.Limit n
  | .skip n => ab.Skip n
  | .project p => ab.Project p
  | .unwind p => ab.Unwind p
  | .lookup a b c d => ab.Lookup a b c d
  | .addStage s => ab.AddStage s

/-! Section: Claim theorems -/

/-- C2: for every builder state and non-empty list of condition lists,
`And` (resp. `Or`, `Nor`) appends exactly one entry keyed `$and` (resp.
`$or`, `$nor`) whose value is the given list of condition lists; with the
empty list each is a complete no-op. -/
theorem and_or_nor_append_single_entry (qb : QueryBuilder)
    (conditions : List BsonD) (h : conditions ≠ []) :
    (qb.And conditions).filter
        = qb.filter ++ [("$and", BVal.docList conditions)]
    ∧ (qb.Or conditions).filter
        = qb.filter ++ [("$or", BVal.docList conditions)]
    ∧ (qb.Nor conditions).filter
        = qb.filter ++ [("$nor", BVal.docList conditions)]
    ∧ qb.And [] = qb ∧ qb.Or [] = qb ∧ qb.Nor [] = qb := by
  have hlen : 0 < conditions.length := List.length_pos.mpr h
  refine ⟨?_, ?_, ?_, ?_, ?_, ?_⟩ <;>
    simp [QueryBuilder.And, QueryBuilder.Or, QueryBuilder.Nor, hlen]

/-- Witness for C2 at a concrete input. -/
theorem and_or_nor_append_single_entry_w :
    (NewQueryBuilder.And [[("x", BVal.int 1)]]).filter
      = [("$and", BVal.docList [[("x", BVal.int 1)]])] := by
  have h := and_or_nor_append_single_entry NewQueryBuilder
    [[("x", BVal.int 1)]] (by simp)
  simpa [NewQueryBuilder] using h.1

/-- C3: `AndConditions` (resp. `OrConditions`, `NorConditions`) produces the
identical builder as `And` (resp. `Or`, `Nor`) applied to the component
builders' `GetFilter()` results, and with zero builders each is a no-op. -/
theorem conditions_delegate_to_logical_ops (qb : QueryBuilder)
    (builders : List QueryBuilder) :
    qb.AndConditions builders
        = qb.And (builders.map QueryBuilder.GetFilter)
    ∧ qb.OrConditions builders
        = qb.Or (builders.map QueryBuilder.GetFilter)
    ∧ qb.NorConditions builders
        = qb.Nor (builders.map QueryBuilder.GetFilter)
    ∧ qb.AndConditions [] = qb ∧ qb.OrConditions [] = qb
    ∧ qb.NorConditions [] = qb := by
  cases builders <;>
    simp [QueryBuilder.AndConditions, QueryBuilder.OrConditions,
      QueryBuilder.NorConditions, QueryBuilder.And, QueryBuilder.Or,
      QueryBuilder.Nor]

/-- C4: `Sort(field, ascending)` appends `(field, +1 or -1)` to the
accumulated sort fields and sets the options' sort to the full accumulated
sequence, so successive calls compose a multi-key sort in call order. -/
theorem sort_accumulates_multikey (qb : QueryBuilder) (field : String)
    (ascending : Bool) :
    (qb.Sort field ascending).sortFields
        = qb.sortFields ++ [(field, BVal.int (if ascending then 1 else -1))]
    ∧ (qb.Sort field ascending).options.sort
        = some (BVal.doc (qb.sortFields
            ++ [(field, BVal.int (if ascending then 1 else -1))]))
    ∧ ((NewQueryBuilder.Sort "a" true).Sort "b" false).options.sort
        = some (BVal.doc [("a", BVal.int 1), ("b", BVal.int (-1))]) := by
  refine ⟨?_, ?_, ?_⟩ <;>
    simp [QueryBuilder.Sort, NewQueryBuilder, findOptions]

/-- C5: `SortBy` clears the accumulated sort fields and installs the
caller-supplied sort, so a later `Sort` accumulates from empty again. -/
theorem sortBy_clears_accumulated_sort (qb : QueryBuilder) (s : BVal) :
    (qb.SortBy s).sortFields = []
    ∧ (qb.SortBy s).options.sort = some s
    ∧ ∀ customSpec : BVal,
        (((NewQueryBuilder.Sort "a" true).SortBy customSpec).Sort
            "b" true).sortFields
          = [("b", BVal.int 1)] := by
  refine ⟨rfl, rfl, fun customSpec => ?_⟩
  simp [QueryBuilder.Sort, QueryBuilder.SortBy, NewQueryBuilder, findOptions]

/-- C6: `Where` appends a `bson.M` entry by entry, a `bson.D` verbatim, a
`bson.E` as one entry, and leaves the builder completely unchanged on every
other shape (no error). -/
theorem where_shape_dispatch (qb : QueryBuilder) :
    (∀ m : BsonM, (qb.Where (WhereExpr.m m)).filter = qb.filter ++ m)
    ∧ (∀ d : BsonD, (qb.Where (WhereExpr.d d)).filter = qb.filter ++ d)
    ∧ (∀ (k : String) (v : BVal),
        (qb.Where (WhereExpr.e k v)).filter = qb.filter ++ [(k, v)])
    ∧ (∀ v : BVal, qb.Where (WhereExpr.other v) = qb) :=
  ⟨fun _ => rfl, fun _ => rfl, fun _ _ => rfl, fun _ => rfl⟩

/-- C9: each comparison method appends exactly one entry `(f, {op: v})`
with the correct operator key, and `In`/`NotIn` append one entry holding
the value list under `$in`/`$nin`. -/
theorem comparison_operators_single_entry (qb : QueryBuilder) (f : String)
    (v v1 v2 v3 : BVal) :
    (qb.NotEquals f v).filter = qb.filter ++ [(f, BVal.map [("$ne", v)])]
    ∧ (qb.GreaterThan f v).filter
        = qb.filter ++ [(f, BVal.map [("$gt", v)])]
    ∧ (qb.GreaterThanOrEqual f v).filter
        = qb.filter ++ [(f, BVal.map [("$gte", v)])]
    ∧ (qb.LessThan f v).filter = qb.filter ++ [(f, BVal.map [("$lt", v)])]
    ∧ (qb.LessThanOrEqual f v).filter
        = qb.filter ++ [(f, BVal.map [("$lte", v)])]
    ∧ (qb.In f [v1, v2, v3]).filter
        = qb.filter ++ [(f, BVal.map [("$in", BVal.arr [v1, v2, v3])])]
    ∧ (qb.NotIn f [v1, v2, v3]).filter
        = qb.filter ++ [(f, BVal.map [("$nin", BVal.arr [v1, v2, v3])])] :=
  ⟨rfl, rfl, rfl, rfl, rfl, rfl, rfl⟩

/-- C10: unlike `And`/`Or`/`Nor`, `In` and `NotIn` with zero values are not
no-ops: they still append one entry with an empty `$in`/`$nin` list, so the
filter grows by one entry. -/
theorem in_notin_empty_still_append (qb : QueryBuilder) (f : String) :
    (qb.In f []).filter
        = qb.filter ++ [(f, BVal.map [("$in", BVal.arr [])])]
    ∧ (qb.NotIn f []).filter
        = qb.filter ++ [(f, BVal.map [("$nin", BVal.arr [])])]
    ∧ (qb.In f []).filter.length = qb.filter.length + 1
    ∧ (qb.NotIn f []).filter.length = qb.filter.length + 1 := by
  refine ⟨rfl, rfl, ?_, ?_⟩ <;>
    simp [QueryBuilder.In, QueryBuilder.NotIn, QueryBuilder.Filter]

/-- C7: every `AggregationBuilder` method appends exactly one stage and
never merges with a prior stage; in particular two `Match` calls give the
two-stage pipeline with both `$match` stages. -/
theorem aggregation_appends_one_stage (ab : AggregationBuilder)
    (op : AggOp) :
    (∃ st : BsonD, (applyAggOp ab op).pipeline = ab.pipeline ++ [st])
    ∧ ∀ m1 m2 : BVal,
        ((NewAggregationBuilder.Match m1).Match m2).Build
          = [[("$match", m1)], [("$match", m2)]] := by
  constructor
  · cases op <;> exact ⟨_, rfl⟩
  · intro m1 m2; rfl

/-- C1: after any sequence of public `UpdateBuilder` calls, the update
document has at most one entry per operator key, every operator value is a
field map with unique field keys, and a further `addOperator` write makes
the last write per field win (the written field reads back the new value,
other fields are unchanged); `Set("a",1).Set("b",2)` yields exactly one
`$set` entry with field map `{"a": 1, "b": 2}`. -/
theorem update_builder_single_operator_entries (ops : List UpdateOp)
    (op k k' : String) (v : BVal) (hk : k' ≠ k) :
    ((runUpdate ops).update.map Prod.fst).Nodup
    ∧ (∀ e ∈ (runUpdate ops).update,
        ∃ m, e.2 = BVal.map m ∧ (m.map Prod.fst).Nodup)
    ∧ mapLookup
        (fieldMapOf (addOperatorD (runUpdate ops).update op k v) op) k
        = some v
    ∧ mapLookup
        (fieldMapOf (addOperatorD (runUpdate ops).update op k v) op) k'
        = mapLookup (fieldMapOf (runUpdate ops).update op) k'
    ∧ ((NewUpdateBuilder.Set "a" (BVal.int 1)).Set "b" (BVal.int 2)).Build
        = [("$set", BVal.map [("a", BVal.int 1), ("b", BVal.int 2)])] := by
  refine ⟨(goodUpdate_runUpdate ops).1, (goodUpdate_runUpdate ops).2,
    ?_, ?_, ?_⟩
  · rw [fieldMapOf_addOperatorD]
    exact mapLookup_mapSet_self _ _ _
  · rw [fieldMapOf_addOperatorD]
    exact mapLookup_mapSet_other _ _ hk
  · simp [UpdateBuilder.Set, UpdateBuilder.addOperator, UpdateBuilder.Build,
      NewUpdateBuilder, addOperatorD, mapSet]

/-- Witness for C1 at a concrete input. -/
theorem update_builder_single_operator_entries_w :
    mapLookup
      (fieldMapOf
        (addOperatorD (runUpdate [UpdateOp.set "x" (BVal.int 5)]).update
          "$set" "a" (BVal.int 2)) "$set") "a"
      = some (BVal.int 2) := by
  have h := update_builder_single_operator_entries
    [UpdateOp.set "x" (BVal.int 5)] "$set" "a" "b" (BVal.int 2) (by decide)
  exact h.2.2.1

theorem applyQBOp_filter_extends (qb : QueryBuilder) (op : QBOp) :
    ∃ t, (applyQBOp qb op).filter = qb.filter ++ t := by
  cases op with
  | filterOp k v => exact ⟨_, rfl⟩
  | equals k v => exact ⟨_, rfl⟩
  | notEquals k v => exact ⟨_, rfl⟩
  | greaterThan k v => exact ⟨_, rfl⟩
  | greaterThanOrEqual k v => exact ⟨_, rfl⟩
  | lessThan k v => exact ⟨_, rfl⟩
  | lessThanOrEqual k v => exact ⟨_, rfl⟩
  | inOp k vs => exact ⟨_, rfl⟩
  | notInOp k vs => exact ⟨_, rfl⟩
  | existsOp k e => exact ⟨_, rfl⟩
  | regex k p o => exact ⟨_, rfl⟩
  | andOp cs =>
    by_cases h : 0 < cs.length
    · exact ⟨[("$and", BVal.docList cs)],
        by simp [applyQBOp, QueryBuilder.And, h]⟩
    · exact ⟨[], by simp [applyQBOp, QueryBuilder.And, h]⟩
  | orOp cs =>
    by_cases h : 0 < cs.length
    · exact ⟨[("$or", BVal.docList cs)],
        by simp [applyQBOp, QueryBuilder.Or, h]⟩
    · exact ⟨[], by simp [applyQBOp, QueryBuilder.Or, h]⟩
  | norOp cs =>
    by_cases h : 0 < cs.length
    · exact ⟨[("$nor", BVal.docList cs)],
        by simp [applyQBOp, QueryBuilder.Nor, h]⟩
    · exact ⟨[], by simp [applyQBOp, QueryBuilder.Nor, h]⟩
  | limit n => exact ⟨[], by simp [applyQBOp, QueryBuilder.Limit]⟩
  | skip n => exact ⟨[], by simp [applyQBOp, QueryBuilder.Skip]⟩
  | sort f a => exact ⟨[], by simp [applyQBOp, QueryBuilder.Sort]⟩
  | sortBy s => exact ⟨[], by simp [applyQBOp, QueryBuilder.SortBy]⟩
  | project p => exact ⟨[], by simp [applyQBOp, QueryBuilder.Project]⟩
  | andConds bs =>
    by_cases h : bs.length = 0
    · exact ⟨[], by simp [applyQBOp, QueryBuilder.AndConditions, h]⟩
    · have h2 : 0 < bs.length := Nat.pos_of_ne_zero h
      exact ⟨[("$and", BVal.docList (bs.map (fun b => b.GetFilter)))], by
        simp [applyQBOp, QueryBuilder.AndConditions, QueryBuilder.And, h, h2]⟩
  | orConds bs =>
    by_cases h : bs.length = 0
    · exact ⟨[], by simp [applyQBOp, QueryBuilder.OrConditions, h]⟩
    · have h2 : 0 < bs.length := Nat.pos_of_ne_zero h
      exact ⟨[("$or", BVal.docList (bs.map (fun b => b.GetFilter)))], by
        simp [applyQBOp, QueryBuilder.OrConditions, QueryBuilder.Or, h, h2]⟩
  | norConds bs =>
    by_cases h : bs.length = 0
    · exact ⟨[], by simp [applyQBOp, QueryBuilder.NorConditions, h]⟩
    · have h2 : 0 < bs.length := Nat.pos_of_ne_zero h
      exact ⟨[("$nor", BVal.docList (bs.map (fun b => b.GetFilter)))], by
        simp [applyQBOp, QueryBuilder.NorConditions, QueryBuilder.Nor, h, h2]⟩
  | whereOp e =>
    cases e with
    | m v => exact ⟨_, rfl⟩
    | d v => exact ⟨_, rfl⟩
    | e k v => exact ⟨_, rfl⟩
    | other v => exact ⟨[], by simp [applyQBOp, QueryBuilder.Where]⟩

theorem applyQBOps_filter_extends (qb : QueryBuilder) (ops : List QBOp) :
    ∃ t, (applyQBOps qb ops).filter = qb.filter ++ t := by
  induction ops generalizing qb with
  | nil => exact ⟨[], by simp [applyQBOps]⟩
  | cons op rest ih =>
    obtain ⟨t1, h1⟩ := applyQBOp_filter_extends qb op
    obtain ⟨t2, h2⟩ := ih (applyQBOp qb op)
    refine ⟨t1 ++ t2, ?_⟩
    show (rest.foldl applyQBOp (applyQBOp qb op)).filter = _
    rw [show rest.foldl applyQBOp (applyQBOp qb op)
        = applyQBOps (applyQBOp qb op) rest from rfl, h2, h1,
      List.append_assoc]

/-- C8: composing a builder's filter via `AndConditions` stores the source
filters by value: the `$and` entry holds each source's filter as of the
call, and every later sequence of public calls on a source builder only
extends its filter in place (the original cells are a preserved prefix), so
the stored snapshot is unaffected. -/
theorem compose_snapshot_immutable (qb1 qb2 : QueryBuilder)
    (builders : List QueryBuilder) (ops : List QBOp)
    (h : builders ≠ []) :
    (qb2.AndConditions builders).filter
        = qb2.filter
          ++ [("$and", BVal.docList (builders.map QueryBuilder.GetFilter))]
    ∧ (applyQBOps qb1 ops).filter.take qb1.filter.length = qb1.filter := by
  constructor
  · have hlen : ¬builders.length = 0 := by
      simpa using fun hc => h (List.length_eq_zero.mp hc)
    have hpos : 0 < builders.length := Nat.pos_of_ne_zero hlen
    simp [QueryBuilder.AndConditions, QueryBuilder.And, hlen, hpos]
  · obtain ⟨t, ht⟩ := applyQBOps_filter_extends qb1 ops
    rw [ht, List.take_left]

/-- Witness for C8 at a concrete input. -/
theorem compose_snapshot_immutable_w :
    ((NewQueryBuilder.Filter "a" (BVal.int 1)).AndConditions
        [NewQueryBuilder.Filter "b" (BVal.int 2)]).filter
      = [("a", BVal.int 1),
         ("$and", BVal.docList [[("b", BVal.int 2)]])] := by
  have h := compose_snapshot_immutable
    (NewQueryBuilder.Filter "b" (BVal.int 2))
    (NewQueryBuilder.Filter "a" (BVal.int 1))
    [NewQueryBuilder.Filter "b" (BVal.int 2)] [] (by simp)
  simpa [NewQueryBuilder, QueryBuilder.Filter, QueryBuilder.GetFilter]
    using h.1

end MongoKit
